import Mathlib

/-!
Verification of the Virginia inventory dashboard's core parsing pipeline.

The repository has two processor variants:
* `InventoryProcessor` in app.py (embedded here with unsuffixed names), and
* `SimpleInventoryProcessor` in simple_inventory_app.py (names suffixed with S).

Cells of the raw sheet are modelled as `Option String`: `none` stands for a
missing value (pandas NaN) and `some s` for the textual content of the cell.
Quantities are modelled exactly: a parsed float is a `PyNum`, an integer
numerator over a power-of-ten denominator whose rational meaning is
`PyNum.toRat`.  The Python code works with IEEE floats, but every value the
claims touch is produced by parsing short decimal literals, on which
decimal-exact arithmetic agrees with float semantics.  Non-finite
spellings accepted by Python's float() (inf/nan variants) have no rational
counterpart and are treated as parse failures; the only such spelling the code
can meet, the lowercase string nan, is filtered out before parsing in both
variants.
-/

/-- A raw sheet cell: `none` models pandas NaN, `some s` a string value. -/
abbrev Cell := Option String

/-- Python str() of a cell: NaN prints as the four characters nan. -/
def cellStr : Cell → String
  | none => "nan"
  | some s => s

/-- Whitespace recognised by strip(); Lean's isWhitespace covers the ASCII
whitespace Python strips in the inputs this pipeline meets. -/
def isWsC (c : Char) : Bool := c.isWhitespace

/-- Leading-whitespace removal on a character list. -/
def dropLeadWs (cs : List Char) : List Char := cs.dropWhile isWsC

/-- Python str.strip() on a character list. -/
def trimL (cs : List Char) : List Char :=
  ((dropLeadWs cs).reverse.dropWhile isWsC).reverse

/-- Python str.strip() on a string. -/
def pyStrip (s : String) : String := ⟨trimL s.data⟩

/-- The label cell of a row: str(row.iloc[0]).strip(). -/
def labelOf (row : List Cell) : String := pyStrip (cellStr (row.getD 0 none))

/-- Does the first list occur literally at the head of the second? -/
def leadsList : List Char → List Char → Bool
  | [], _ => true
  | _ :: _, [] => false
  | a :: as, b :: bs => a = b && leadsList as bs

/-- Case-insensitive version of `leadsList`. -/
def leadsCI : List Char → List Char → Bool
  | [], _ => true
  | _ :: _, [] => false
  | a :: as, b :: bs => a.toLower = b.toLower && leadsCI as bs

/-- All suffixes of a list, longest first (the list itself down to []). -/
def suffixes : List Char → List (List Char)
  | [] => [[]]
  | c :: cs => (c :: cs) :: suffixes cs

/-- Python substring test: needle in hay. -/
def containsSub (needle hay : String) : Bool :=
  (suffixes hay.data).any (leadsList needle.data)

/-- Number of leading characters satisfying p. -/
def countLeading (p : Char → Bool) : List Char → Nat
  | [] => 0
  | c :: cs => if p c then countLeading p cs + 1 else 0

/-- Tokens of the tiny pattern language used to embed the date and
product-code regular expressions of the source (re.search semantics). -/
inductive Tok where
  | digits (lo hi : Nat)
  | digitsPlus
  | wsPlus
  | lit (w : String)
  | monthCI (ws : List String)

/-- Match a token sequence at the head of a character list, with the
backtracking the source regexes can perform.  `digitsPlus` is used only where
the following token cannot consume a digit, so greedy matching is exact. -/
def matchToks : List Tok → List Char → Bool
  | [], _ => true
  | Tok.digits lo hi :: ts, cs =>
      let n := min (countLeading Char.isDigit cs) hi
      (List.range (n + 1)).any fun k => decide (lo ≤ k) && matchToks ts (cs.drop k)
  | Tok.digitsPlus :: ts, cs =>
      let n := countLeading Char.isDigit cs
      decide (1 ≤ n) && matchToks ts (cs.drop n)
  | Tok.wsPlus :: ts, cs =>
      let n := countLeading isWsC cs
      (List.range (n + 1)).any fun k => decide (1 ≤ k) && matchToks ts (cs.drop k)
  | Tok.lit w :: ts, cs =>
      leadsList w.data cs && matchToks ts (cs.drop w.data.length)
  | Tok.monthCI ws :: ts, cs =>
      ws.any fun w => leadsCI w.data cs && matchToks ts (cs.drop w.data.length)

/-- re.search: does the token pattern match at some position of the text? -/
def searchToks (ts : List Tok) (cs : List Char) : Bool :=
  (suffixes cs).any (matchToks ts)

def monthsAbbr : List String :=
  ["Jan", "Feb", "Mar", "Apr", "May", "Jun", "Jul", "Aug", "Sep", "Oct", "Nov", "Dec"]

def monthsFull : List String :=
  ["January", "February", "March", "April", "May", "June", "July", "August",
   "September", "October", "November", "December"]

def monthsArabic : List String :=
  ["يناير", "فبراير", "مارس", "أبريل", "مايو", "يونيو", "يوليو", "أغسطس",
   "سبتمبر", "أكتوبر", "نوفمبر", "ديسمبر"]

/-- app.py date pattern 1: day, abbreviated English month, 4-digit year. -/
def datePat1 : List Tok :=
  [Tok.digits 1 2, Tok.wsPlus, Tok.monthCI monthsAbbr, Tok.wsPlus, Tok.digits 4 4]

/-- app.py date pattern 2: full English month name, 4-digit year. -/
def datePat2 : List Tok :=
  [Tok.monthCI monthsFull, Tok.wsPlus, Tok.digits 4 4]

/-- app.py date pattern 3: day, Arabic month name, 4-digit year. -/
def datePat3 : List Tok :=
  [Tok.digits 1 2, Tok.wsPlus, Tok.monthCI monthsArabic, Tok.wsPlus, Tok.digits 4 4]

/-- InventoryProcessor._is_date_row (app.py:168-179). -/
def isDateRow (t : String) : Bool :=
  if t = "" || t = "nan" then false
  else [datePat1, datePat2, datePat3].any fun p => searchToks p t.data

/-- simple_inventory_app.py date pattern 2 covers only June..December. -/
def monthsJunDec : List String :=
  ["June", "July", "August", "September", "October", "November", "December"]

def datePat2S : List Tok :=
  [Tok.monthCI monthsJunDec, Tok.wsPlus, Tok.digits 4 4]

/-- SimpleInventoryProcessor._is_date_row (simple_inventory_app.py:148-158). -/
def isDateRowS (t : String) : Bool :=
  if t = "" || t = "nan" then false
  else [datePat1, datePat2S].any fun p => searchToks p t.data

/-- Numeric value of a digit string (most significant first). -/
def natOfDigits (cs : List Char) : Nat :=
  cs.foldl (fun a c => a * 10 + (c.toNat - 48)) 0

/-- Split a character list into maximal whitespace-free tokens. -/
def splitWsAux (acc : List Char) : List Char → List (List Char)
  | [] => if acc = [] then [] else [acc.reverse]
  | c :: cs =>
      if isWsC c then
        if acc = [] then splitWsAux [] cs else acc.reverse :: splitWsAux [] cs
      else splitWsAux (c :: acc) cs

def splitWs (cs : List Char) : List (List Char) := splitWsAux [] cs

/-- 1-based index of the month name equal (case-insensitively) to the token,
mirroring strptime's case-insensitive month matching. -/
def monthIdxAux (i : Nat) (tok : List Char) : List String → Option Nat
  | [] => none
  | n :: ns =>
      if n.data.map Char.toLower = tok.map Char.toLower then some i
      else monthIdxAux (i + 1) tok ns

def monthIdxCI (names : List String) (tok : List Char) : Option Nat :=
  monthIdxAux 1 tok names

def isLeapYear (y : Nat) : Bool := (y % 4 = 0 && y % 100 ≠ 0) || y % 400 = 0

def daysInMonth (y m : Nat) : Nat :=
  if m = 2 then (if isLeapYear y then 29 else 28)
  else if m = 4 ∨ m = 6 ∨ m = 9 ∨ m = 11 then 30
  else 31

/-- Left-pad a digit list with zeros to the given width. -/
def padZeros (w : Nat) (cs : List Char) : List Char :=
  List.replicate (w - cs.length) '0' ++ cs

/-- strftime %Y-%m-%d. -/
def isoOfYMD (y m d : Nat) : String :=
  ⟨padZeros 4 (Nat.repr y).data ++ '-' :: (padZeros 2 (Nat.repr m).data ++ '-' :: padZeros 2 (Nat.repr d).data)⟩

def allDigits (cs : List Char) : Bool := decide (cs ≠ []) && cs.all Char.isDigit

/-- _parse_date (app.py:181-194 and simple_inventory_app.py:160-172): try the
strptime formats [d abbr-month Y, d full-month Y, full-month Y, abbr-month Y]
in order and return the first success rendered as %Y-%m-%d, otherwise the raw
string.  strptime validates the day against the month length and rejects year
0; month-only formats parse as day 1 of the month. -/
def parseDate (s : String) : String :=
  match splitWs (trimL s.data) with
  | [d, m, y] =>
      if allDigits d && decide (d.length ≤ 2) && allDigits y && decide (y.length = 4) then
        let dn := natOfDigits d
        let yn := natOfDigits y
        match (monthIdxCI monthsAbbr m).orElse (fun _ => monthIdxCI monthsFull m) with
        | some mn =>
            if 1 ≤ dn ∧ dn ≤ daysInMonth yn mn ∧ 1 ≤ yn then isoOfYMD yn mn dn else s
        | none => s
      else s
  | [m, y] =>
      if allDigits y && decide (y.length = 4) then
        match (monthIdxCI monthsFull m).orElse (fun _ => monthIdxCI monthsAbbr m) with
        | some mn => if 1 ≤ natOfDigits y then isoOfYMD (natOfDigits y) mn 1 else s
        | none => s
      else s
  | _ => s

/-- Greedy split of the leading digit run. -/
def takeDigits (cs : List Char) : List Char × List Char :=
  (cs.takeWhile Char.isDigit, cs.dropWhile Char.isDigit)

/-- The exact value of a finite decimal float literal: an integer numerator
over a power-of-ten denominator, kept unreduced so that every operation is
plain integer arithmetic (the rational meaning is `toRat`).  Python floats are
binary IEEE values; on the short decimal literals this pipeline reads and
compares, decimal-exact arithmetic agrees with float semantics. -/
structure PyNum where
  num : Int
  den : Nat
deriving DecidableEq, Repr

/-- The rational value a `PyNum` denotes. -/
def PyNum.toRat (q : PyNum) : ℚ := (q.num : ℚ) / (q.den : ℚ)

/-- The strict-positivity test the source applies to parsed values
(quantity > 0 on floats). -/
def PyNum.posB (q : PyNum) : Bool := decide (0 < q.num) && decide (0 < q.den)

/-- The float 0.0 returned on missing/invalid input. -/
def pyZero : PyNum := ⟨0, 1⟩

/-- Apply a decimal exponent: scale the numerator (e ≥ 0 in the literal) or
the denominator (negative exponent). -/
def applyExp (q : PyNum) : Bool → Nat → PyNum
  | false, e => ⟨q.num * 10 ^ e, q.den⟩
  | true, e => ⟨q.num, q.den * 10 ^ e⟩

/-- Optional exponent suffix of a float literal: (e|E)[+|-]digits, which must
consume the rest of the input. -/
def parseExpTail (base : PyNum) : List Char → Option PyNum
  | [] => some base
  | c :: t =>
      if c = 'e' ∨ c = 'E' then
        let st := match t with
          | '+' :: u => (false, u)
          | '-' :: u => (true, u)
          | u => (false, u)
        let ds := takeDigits st.2
        if decide (ds.1 ≠ []) && decide (ds.2 = []) then
          some (applyExp base st.1 (natOfDigits ds.1))
        else none
      else none

/-- Python float() on an already-stripped string, restricted to finite decimal
literals: [sign] (digits [. digits] | . digits) [exponent]; anything else
(including inf/nan spellings, which have no rational value) is a failure. -/
def parsePyFloat (s : List Char) : Option PyNum :=
  let sg : Int × List Char := match s with
    | '+' :: t => (1, t)
    | '-' :: t => (-1, t)
    | t => (1, t)
  let ip := takeDigits sg.2
  match ip.2 with
  | '.' :: t =>
      let fp := takeDigits t
      if decide (ip.1 = []) && decide (fp.1 = []) then none
      else
        parseExpTail
          ⟨sg.1 * ((natOfDigits ip.1 * 10 ^ fp.1.length + natOfDigits fp.1 : Nat) : Int),
           10 ^ fp.1.length⟩
          fp.2
  | r =>
      if ip.1 = [] then none
      else parseExpTail ⟨sg.1 * ((natOfDigits ip.1 : Nat) : Int), 1⟩ r

/-- InventoryProcessor._safe_float (app.py:234-248): NaN/empty/whitespace → 0,
strip commas and double-quote characters, trim, reject nan/empty, parse,
any failure → 0.  Total by construction: every cell maps to a value. -/
def safeFloat (v : Cell) : PyNum :=
  match v with
  | none => pyZero
  | some s =>
      if trimL s.data = [] then pyZero
      else
        let sv := trimL (s.data.filter fun c => !(c = ',' || c = Char.ofNat 34))
        if sv = "nan".data ∨ sv = [] then pyZero
        else (parsePyFloat sv).getD pyZero

/-- SimpleInventoryProcessor._safe_float (simple_inventory_app.py:220-228):
NaN → 0, strip commas, trim, parse unless empty or nan, any failure → 0. -/
def safeFloatS (v : Cell) : PyNum :=
  match v with
  | none => pyZero
  | some s =>
      let sv := trimL (s.data.filter fun c => !(c = ','))
      if decide (sv ≠ []) && decide (sv ≠ "nan".data) then (parsePyFloat sv).getD pyZero
      else pyZero

/-- Python dict assignment m[k] = v: update in place if the key exists
(keeping its position), otherwise append at the end. -/
def dinsert {α : Type} : List (String × α) → String → α → List (String × α)
  | [], k, v => [(k, v)]
  | (k1, v1) :: m, k, v =>
      if k1 = k then (k1, v) :: m else (k1, v1) :: dinsert m k v

/-- Python dict lookup (keys are unique, first hit wins). -/
def dlookup {α : Type} : List (String × α) → String → Option α
  | [], _ => none
  | (k1, v1) :: m, k => if k = k1 then some v1 else dlookup m k

/-- The enumerate-columns loop shared by both mappers: `f i col` says what, if
anything, column `col` at index `i` inserts into the dict. -/
def buildMapFrom {α : Type} (f : Nat → String → Option (String × α)) :
    List (String × α) → Nat → List String → List (String × α)
  | m, _, [] => m
  | m, i, c :: cs =>
      buildMapFrom f
        (match f i c with
         | some kv => dinsert m kv.1 kv.2
         | none => m)
        (i + 1) cs

/-- The value that the last (rightmost) assignment to a given key records,
scanning columns from index `i`. -/
def lastAssignFrom {α : Type} (f : Nat → String → Option (String × α)) (n : String) :
    Nat → List String → Option α
  | _, [] => none
  | i, c :: cs =>
      match lastAssignFrom f n (i + 1) cs with
      | some v => some v
      | none =>
          match f i c with
          | some kv => if kv.1 = n then some kv.2 else none
          | none => none

/-- The warehouse catalog of InventoryProcessor._map_location_columns
(app.py:123-143), in source order: raw header fragment paired with the
canonical display name. -/
def appLocations : List (String × String) :=
  [("POS/الصالة", "الصالة"),
   ("Virtual Locations/تذوق", "تذوق"),
   ("Virtual Locations/عينات", "عينات"),
   ("Virtual Locations/مستلزمات المبيعات والتشغيل", "مستلزمات المبيعات"),
   ("Virtual Locations/هالك", "هالك"),
   ("WH-pr/مخزن الانتاج", "مخزن الإنتاج"),
   ("WH/المخزن الرئيسى", "المخزن الرئيسي"),
   ("cairo/مخزن القاهرة", "مخزن القاهرة"),
   ("other/مخزون لدي الغير شيخون", "مخزون لدي الغير"),
   ("sadat/مخزن السادات", "مخزن السادات"),
   ("wh-p/مخزون المنتج التام", "المنتج التام"),
   ("zagel/مخزن زاجل", "مخزن زاجل"),
   ("تحويل/المخزون", "تحويل المخزون"),
   ("ثلاجه/المخزون", "ثلاجة المخزون"),
   ("حيدوي/المخزون", "حيدوي المخزون"),
   ("ساحل/المخزون", "ساحل المخزون"),
   ("شحن/المخزون", "شحن المخزون"),
   ("صابون/المخزون", "صابون المخزون"),
   ("فتحي/المخزون", "فتحي المخزون")]

/-- The first catalog entry (in catalog order) whose fragment occurs in the
column label; the inner loop of app.py:147-150 stops there (break). -/
def firstMatchName (col : String) : Option String :=
  (appLocations.find? fun kv => containsSub kv.1 col).map (fun kv => kv.2)

/-- What one column inserts in the app.py mapper: the canonical name of its
first catalog match, bound to the column's own index. -/
def appAssign (i : Nat) (col : String) : Option (String × Nat) :=
  (firstMatchName col).map (fun n => (n, i))

/-- InventoryProcessor._map_location_columns (app.py:118-152). -/
def mapLocationColumns (cols : List String) : List (String × Nat) :=
  buildMapFrom appAssign [] 0 cols

/-- The raw location fragments of SimpleInventoryProcessor._create_location_mapping
(simple_inventory_app.py:108-128), in source order. -/
def simpleLocations : List String :=
  ["POS/الصالة",
   "Virtual Locations/تذوق",
   "Virtual Locations/عينات",
   "Virtual Locations/مستلزمات المبيعات والتشغيل",
   "Virtual Locations/هالك",
   "WH-pr/مخزن الانتاج",
   "WH/المخزن الرئيسى",
   "cairo/مخزن القاهرة",
   "other/مخزون لدي الغير شيخون",
   "sadat/مخزن السادات",
   "wh-p/مخزون المنتج التام",
   "zagel/مخزن زاجل",
   "تحويل/المخزون",
   "ثلاجه/المخزون",
   "حيدوي/المخزون",
   "ساحل/المخزون",
   "شحن/المخزون",
   "صابون/المخزون",
   "فتحي/المخزون"]

/-- The characters after the last slash (split('/')[-1] of a string that
contains a slash). -/
def lastSegAux (cur : List Char) : List Char → List Char
  | [] => cur.reverse
  | c :: cs => if c = '/' then lastSegAux [] cs else lastSegAux (c :: cur) cs

/-- SimpleInventoryProcessor._clean_location_name: the part after the last
slash (split('/')[-1]) when a slash is present. -/
def cleanLocationName (l : String) : String :=
  if l.data.contains '/' then ⟨lastSegAux [] l.data⟩ else l

/-- First fragment (in catalog order) occurring in the column label. -/
def simpleFirstMatch (col : String) : Option String :=
  simpleLocations.find? fun loc => containsSub loc col

/-- What one column inserts in the simple mapper: the cleaned name bound to
(count column = the column itself, quantity column = the next one), but only
when a next column exists; the column is consumed (break) either way. -/
def simpleAssign (total : Nat) (i : Nat) (col : String) : Option (String × (Nat × Nat)) :=
  (simpleFirstMatch col).bind fun loc =>
    if i + 1 < total then some (cleanLocationName loc, (i, i + 1)) else none

/-- SimpleInventoryProcessor._create_location_mapping (simple_inventory_app.py:103-140). -/
def createLocationMapping (cols : List String) : List (String × (Nat × Nat)) :=
  buildMapFrom (simpleAssign cols.length) [] 0 cols

/-- app.py header/noise indicator list (app.py:159-164). -/
def headerIndicators : List String :=
  ["الكمية بوحدة قياس المنتج", "Column0", "التعداد", "الكمية"]

/-- InventoryProcessor._is_header_row (app.py:154-166). -/
def isHeaderRow (t : String) : Bool :=
  if t = "" || t = "nan" then false
  else headerIndicators.any fun ind => containsSub ind t

/-- Bracketed numeric product code: re.search of a [digits] group. -/
def hasBracketCode (t : String) : Bool :=
  searchToks [Tok.lit "[", Tok.digitsPlus, Tok.lit "]"] t.data

/-- At least one character of the Arabic Unicode block 0600-06FF. -/
def hasArabicChar (t : String) : Bool :=
  t.data.any fun c => decide ('؀' ≤ c) && decide (c ≤ 'ۿ')

/-- At least one non-NaN cell after the label coercing to a positive number
(app.py:204, using the app variant of safe_float). -/
def hasPositiveData (row : List Cell) : Bool :=
  (row.drop 1).any fun v => !(v = none) && (safeFloat v).posB

/-- InventoryProcessor._is_product_row (app.py:196-206). -/
def isProductRow (row : List Cell) (firstCol : String) : Bool :=
  if firstCol = "" || firstCol = "nan" then false
  else (hasBracketCode firstCol || hasArabicChar firstCol) && hasPositiveData row

/-- Same test with the simple variant's safe_float (simple_inventory_app.py:182). -/
def hasPositiveDataS (row : List Cell) : Bool :=
  (row.drop 1).any fun v => !(v = none) && (safeFloatS v).posB

/-- SimpleInventoryProcessor._is_product_row (simple_inventory_app.py:174-184):
note the OR — a bracketed code alone suffices, without positive data. -/
def isProductRowS (row : List Cell) (firstCol : String) : Bool :=
  if firstCol = "" || firstCol = "nan" then false
  else hasBracketCode firstCol || (hasArabicChar firstCol && hasPositiveDataS row)

/-- The normalized output record of InventoryProcessor (app.py:222-227). -/
structure InvRecord where
  product : String
  date : String
  warehouse : String
  quantity : PyNum
deriving DecidableEq, Repr

/-- Sentinel date of the app variant (app.py:224). -/
def appSentinel : String := "غير محدد"

/-- InventoryProcessor._extract_all_warehouse_data (app.py:208-232): one
record per mapped location whose column is in range and holds a positive
quantity, in mapping order. -/
def extractAllWarehouseData (lm : List (String × Nat)) (row : List Cell)
    (d : Option String) : List InvRecord :=
  if labelOf row = "" ∨ labelOf row = "nan" then []
  else
    lm.filterMap fun wci =>
      if wci.2 < row.length then
        if (safeFloat (row.getD wci.2 none)).posB then
          some ⟨labelOf row, d.getD appSentinel, wci.1, safeFloat (row.getD wci.2 none)⟩
        else none
      else none

/-- One step of the current-date state in the row loop of process_data
(app.py:89-99): header rows and non-date rows leave it unchanged, date rows
commit the parsed date. -/
def stepDate (d : Option String) (row : List Cell) : Option String :=
  if isHeaderRow (labelOf row) then d
  else if isDateRow (labelOf row) then some (parseDate (labelOf row))
  else d

/-- The records one row contributes in process_data (app.py:89-105). -/
def rowRecs (lm : List (String × Nat)) (d : Option String) (row : List Cell) :
    List InvRecord :=
  if isHeaderRow (labelOf row) then []
  else if isDateRow (labelOf row) then []
  else if isProductRow row (labelOf row) then extractAllWarehouseData lm row d
  else []

/-- The row loop of process_data: thread the current date, concatenate the
rows' contributions in order. -/
def extractLoop (lm : List (String × Nat)) (d : Option String) :
    List (List Cell) → List InvRecord
  | [] => []
  | r :: rs => rowRecs lm d r ++ extractLoop lm (stepDate d r) rs

/-- Code-point lexicographic strict order on strings, as Python compares
the string columns when sorting. -/
def strLtB : List Char → List Char → Bool
  | [], [] => false
  | [], _ :: _ => true
  | _ :: _, [] => false
  | a :: as, b :: bs => if a = b then strLtB as bs else decide (a < b)

/-- Sort key order of _clean_and_sort_data: (Date, Product, Warehouse). -/
def recLE (a b : InvRecord) : Bool :=
  if a.date = b.date then
    if a.product = b.product then !(strLtB b.warehouse.data a.warehouse.data)
    else strLtB a.product.data b.product.data
  else strLtB a.date.data b.date.data

def insertRec (r : InvRecord) : List InvRecord → List InvRecord
  | [] => [r]
  | x :: xs => if recLE r x then r :: x :: xs else x :: insertRec r xs

def sortRecs (l : List InvRecord) : List InvRecord := l.foldr insertRec []

/-- InventoryProcessor._clean_and_sort_data (app.py:250-260): drop
non-positive quantities, strip product names, sort by (Date, Product,
Warehouse). -/
def cleanAndSortData (l : List InvRecord) : List InvRecord :=
  sortRecs ((l.filter fun r => r.quantity.posB).map
    fun r => { r with product := pyStrip r.product })

/-- InventoryProcessor.process_data (app.py:79-116) on a sheet given as a
header (the pandas columns) and data rows. -/
def processData (cols : List String) (rows : List (List Cell)) : List InvRecord :=
  let lm := mapLocationColumns cols
  let pd := extractLoop lm none rows
  if pd = [] then [] else cleanAndSortData pd

/-- The normalized output record of SimpleInventoryProcessor
(simple_inventory_app.py:207-213). -/
structure SInvRecord where
  product : String
  date : String
  location : String
  count : PyNum
  quantity : PyNum
deriving DecidableEq, Repr

/-- Sentinel date of the simple variant (simple_inventory_app.py:209). -/
def simpleSentinel : String := "Unknown"

/-- The value a location column reads from a row (0 when out of range),
simple_inventory_app.py:196-203. -/
def countValS (row : List Cell) (i : Nat) : PyNum :=
  if i < row.length then safeFloatS (row.getD i none) else pyZero

/-- SimpleInventoryProcessor._extract_product_data
(simple_inventory_app.py:186-218): per mapped location read the count and
quantity columns (0 when out of range) and emit a record when either is
positive. -/
def extractProductData (lm : List (String × (Nat × Nat))) (row : List Cell)
    (d : Option String) : List SInvRecord :=
  if labelOf row = "" ∨ labelOf row = "nan" then []
  else
    lm.filterMap fun lci =>
      if (countValS row lci.2.1).posB ∨ (countValS row lci.2.2).posB then
        some ⟨labelOf row, d.getD simpleSentinel, lci.1,
          countValS row lci.2.1, countValS row lci.2.2⟩
      else none

/-- Header/noise indicators of the simple row loop (simple_inventory_app.py:78). -/
def skipIndicatorsS : List String := ["التعداد", "الكمية", "Column"]

def isSkipRowS (t : String) : Bool :=
  skipIndicatorsS.any fun ind => containsSub ind t

/-- One step of the current-date state in the simple row loop
(simple_inventory_app.py:74-84). -/
def stepDateS (d : Option String) (row : List Cell) : Option String :=
  if isSkipRowS (labelOf row) then d
  else if isDateRowS (labelOf row) then some (parseDate (labelOf row))
  else d

/-- The records one row contributes in the simple process_data loop
(simple_inventory_app.py:74-90). -/
def rowRecsS (lm : List (String × (Nat × Nat))) (d : Option String)
    (row : List Cell) : List SInvRecord :=
  if isSkipRowS (labelOf row) then []
  else if isDateRowS (labelOf row) then []
  else if isProductRowS row (labelOf row) then extractProductData lm row d
  else []

def extractLoopS (lm : List (String × (Nat × Nat))) (d : Option String) :
    List (List Cell) → List SInvRecord
  | [] => []
  | r :: rs => rowRecsS lm d r ++ extractLoopS lm (stepDateS d r) rs

/-- Sort key order of _clean_data: (Date, Product, Location). -/
def recLES (a b : SInvRecord) : Bool :=
  if a.date = b.date then
    if a.product = b.product then !(strLtB b.location.data a.location.data)
    else strLtB a.product.data b.product.data
  else strLtB a.date.data b.date.data

def insertRecS (r : SInvRecord) : List SInvRecord → List SInvRecord
  | [] => [r]
  | x :: xs => if recLES r x then r :: x :: xs else x :: insertRecS r xs

def sortRecsS (l : List SInvRecord) : List SInvRecord := l.foldr insertRecS []

/-- SimpleInventoryProcessor._clean_data (simple_inventory_app.py:230-242):
keep records with positive quantity OR positive count, strip product names,
sort by (Date, Product, Location). -/
def cleanDataS (l : List SInvRecord) : List SInvRecord :=
  sortRecsS ((l.filter fun r => r.quantity.posB || r.count.posB).map
    fun r => { r with product := pyStrip r.product })

/-- SimpleInventoryProcessor.process_data (simple_inventory_app.py:64-101). -/
def processDataS (cols : List String) (rows : List (List Cell)) : List SInvRecord :=
  let lm := createLocationMapping cols
  let pd := extractLoopS lm none rows
  if pd = [] then [] else cleanDataS pd

/-- The mutable fields of an InventoryProcessor object (app.py:74-77): the
raw sheet, the processed table (None before the first successful run) and the
location-column map. -/
structure ProcessorState where
  rawCols : List String
  rawRows : List (List Cell)
  processedDf : Option (List InvRecord)
  locationColumns : List (String × Nat)
deriving DecidableEq

/-- One call of InventoryProcessor.process_data as a state transformer: it
reads only the raw sheet, stores the column map and (on success) the cleaned
table back into the object, and returns the resulting record list. -/
def processDataRun (st : ProcessorState) : List InvRecord × ProcessorState :=
  let lm := mapLocationColumns st.rawCols
  let pd := extractLoop lm none st.rawRows
  if pd = [] then ([], { st with locationColumns := lm })
  else
    let cleaned := cleanAndSortData pd
    (cleaned, { st with locationColumns := lm, processedDf := some cleaned })

/-- The mutable fields of a SimpleInventoryProcessor object
(simple_inventory_app.py:60-62). -/
structure SProcessorState where
  rawCols : List String
  rawRows : List (List Cell)
  processedDf : Option (List SInvRecord)
deriving DecidableEq

/-- One call of SimpleInventoryProcessor.process_data as a state transformer. -/
def processDataRunS (st : SProcessorState) : List SInvRecord × SProcessorState :=
  let lm := createLocationMapping st.rawCols
  let pd := extractLoopS lm none st.rawRows
  if pd = [] then ([], st)
  else
    let cleaned := cleanDataS pd
    (cleaned, { st with processedDf := some cleaned })

/-- process_data behind the file-level exception tier: pandas decoding of the
upload either fails — caught at the top, reported, no records (app.py:114-116
and 588-590) — or yields a sheet handed to the processor. -/
def processDataTop (input : Except String (List String × List (List Cell))) :
    List InvRecord :=
  match input with
  | Except.error _ => []
  | Except.ok sheet => processData sheet.1 sheet.2

theorem mem_insertRec : ∀ {r x : InvRecord} {l : List InvRecord},
    r ∈ insertRec x l → r = x ∨ r ∈ l := by
  intro r x l
  induction l with
  | nil => intro h; simp [insertRec] at h; exact Or.inl h
  | cons a as ih =>
      intro h
      unfold insertRec at h
      split at h
      · rcases List.mem_cons.mp h with h1 | h1
        · exact Or.inl h1
        · exact Or.inr h1
      · rcases List.mem_cons.mp h with h1 | h1
        · exact Or.inr (List.mem_cons.mpr (Or.inl h1))
        · rcases ih h1 with h2 | h2
          · exact Or.inl h2
          · exact Or.inr (List.mem_cons.mpr (Or.inr h2))

theorem mem_sortRecs : ∀ {r : InvRecord} {l : List InvRecord},
    r ∈ sortRecs l → r ∈ l := by
  intro r l
  induction l with
  | nil => intro h; simp [sortRecs] at h
  | cons a as ih =>
      intro h
      have hrw : sortRecs (a :: as) = insertRec a (sortRecs as) := rfl
      rw [hrw] at h
      rcases mem_insertRec h with h1 | h2
      · simp [h1]
      · exact List.mem_cons_of_mem a (ih h2)

theorem mem_insertRecS : ∀ {r x : SInvRecord} {l : List SInvRecord},
    r ∈ insertRecS x l → r = x ∨ r ∈ l := by
  intro r x l
  induction l with
  | nil => intro h; simp [insertRecS] at h; exact Or.inl h
  | cons a as ih =>
      intro h
      unfold insertRecS at h
      split at h
      · rcases List.mem_cons.mp h with h1 | h1
        · exact Or.inl h1
        · exact Or.inr h1
      · rcases List.mem_cons.mp h with h1 | h1
        · exact Or.inr (List.mem_cons.mpr (Or.inl h1))
        · rcases ih h1 with h2 | h2
          · exact Or.inl h2
          · exact Or.inr (List.mem_cons.mpr (Or.inr h2))

theorem mem_sortRecsS : ∀ {r : SInvRecord} {l : List SInvRecord},
    r ∈ sortRecsS l → r ∈ l := by
  intro r l
  induction l with
  | nil => intro h; simp [sortRecsS] at h
  | cons a as ih =>
      intro h
      have hrw : sortRecsS (a :: as) = insertRecS a (sortRecsS as) := rfl
      rw [hrw] at h
      rcases mem_insertRecS h with h1 | h2
      · simp [h1]
      · exact List.mem_cons_of_mem a (ih h2)

/-- The date state after a list of rows. -/
def stateAfter (d : Option String) (rows : List (List Cell)) : Option String :=
  rows.foldl stepDate d

/-- A row that commits a new current date: not a header row, and matching the
date patterns (app.py:93-99). -/
def isDateMarker (row : List Cell) : Bool :=
  !isHeaderRow (labelOf row) && isDateRow (labelOf row)

theorem stepDate_eq (d : Option String) (row : List Cell) :
    stepDate d row =
      if isDateMarker row then some (parseDate (labelOf row)) else d := by
  unfold stepDate isDateMarker
  by_cases h1 : isHeaderRow (labelOf row) <;>
    by_cases h2 : isDateRow (labelOf row) <;> simp [h1, h2]

theorem stateAfter_no_marker (d : Option String) :
    ∀ rows : List (List Cell), (∀ x ∈ rows, isDateMarker x = false) →
      stateAfter d rows = d := by
  intro rows
  induction rows generalizing d with
  | nil => intro _; rfl
  | cons a as ih =>
      intro h
      have h1 : isDateMarker a = false := h a (by simp)
      have h2 : stepDate d a = d := by rw [stepDate_eq, h1]; simp
      have h3 : stateAfter d (a :: as) = stateAfter (stepDate d a) as := rfl
      rw [h3, h2]
      exact ih d fun x hx => h x (List.mem_cons_of_mem a hx)

theorem extractLoop_append (lm : List (String × Nat)) :
    ∀ (xs ys : List (List Cell)) (d : Option String),
      extractLoop lm d (xs ++ ys)
        = extractLoop lm d xs ++ extractLoop lm (stateAfter d xs) ys := by
  intro xs
  induction xs with
  | nil => intro ys d; simp [extractLoop, stateAfter]
  | cons r rs ih =>
      intro ys d
      calc extractLoop lm d ((r :: rs) ++ ys)
          = rowRecs lm d r ++ extractLoop lm (stepDate d r) (rs ++ ys) := rfl
        _ = rowRecs lm d r
              ++ (extractLoop lm (stepDate d r) rs
                  ++ extractLoop lm (stateAfter (stepDate d r) rs) ys) := by rw [ih]
        _ = (rowRecs lm d r ++ extractLoop lm (stepDate d r) rs)
              ++ extractLoop lm (stateAfter (stepDate d r) rs) ys := by
                rw [List.append_assoc]
        _ = extractLoop lm d (r :: rs) ++ extractLoop lm (stateAfter d (r :: rs)) ys := rfl

theorem rowRecs_marker (lm : List (String × Nat)) (d : Option String)
    (row : List Cell) (h : isDateMarker row = true) : rowRecs lm d row = [] := by
  unfold isDateMarker at h
  rw [Bool.and_eq_true, Bool.not_eq_true'] at h
  unfold rowRecs
  simp [h.1, h.2]

theorem rowRecs_date (lm : List (String × Nat)) (d : Option String)
    (row : List Cell) : ∀ rec ∈ rowRecs lm d row, rec.date = d.getD appSentinel := by
  intro rec h
  unfold rowRecs at h
  split at h
  · exact absurd h (List.not_mem_nil rec)
  · split at h
    · exact absurd h (List.not_mem_nil rec)
    · split at h
      · unfold extractAllWarehouseData at h
        split at h
        · exact absurd h (List.not_mem_nil rec)
        · rcases List.mem_filterMap.mp h with ⟨a, _, ha⟩
          split at ha
          · split at ha
            · injection ha with ha2
              rw [← ha2]
            · exact absurd ha (by simp)
          · exact absurd ha (by simp)
      · exact absurd h (List.not_mem_nil rec)

theorem dlookup_dinsert {α : Type} (m : List (String × α)) (k : String) (v : α)
    (k' : String) :
    dlookup (dinsert m k v) k' = if k' = k then some v else dlookup m k' := by
  induction m with
  | nil =>
      by_cases h : k' = k <;> simp [dinsert, dlookup, h]
  | cons a m ih =>
      rcases a with ⟨k1, v1⟩
      by_cases h1 : k1 = k
      · simp only [dinsert, h1, if_pos]
        by_cases h2 : k' = k
        · simp [dlookup, h1, h2]
        · simp [dlookup, h1, h2]
      · simp only [dinsert, h1, if_neg, not_false_iff]
        by_cases h2 : k' = k1
        · have h3 : ¬ k' = k := fun he => h1 (h2.symm.trans he)
          simp [dlookup, h2, h3, h1]
        · simp only [dlookup, h2, if_neg, not_false_iff]
          exact ih

theorem dlookup_buildMapFrom {α : Type} (f : Nat → String → Option (String × α))
    (n : String) :
    ∀ (cs : List String) (m : List (String × α)) (i : Nat),
      dlookup (buildMapFrom f m i cs) n
        = match lastAssignFrom f n i cs with
          | some v => some v
          | none => dlookup m n := by
  intro cs
  induction cs with
  | nil => intro m i; rfl
  | cons c cs ih =>
      intro m i
      have h1 : buildMapFrom f m i (c :: cs)
          = buildMapFrom f
              (match f i c with
               | some kv => dinsert m kv.1 kv.2
               | none => m) (i + 1) cs := rfl
      rw [h1, ih]
      cases h2 : lastAssignFrom f n (i + 1) cs with
      | some v => simp [lastAssignFrom, h2]
      | none =>
          cases h3 : f i c with
          | none => simp [lastAssignFrom, h2, h3]
          | some kv =>
              simp only [lastAssignFrom, h2, h3]
              rw [dlookup_dinsert]
              by_cases h4 : kv.1 = n
              · simp [h4]
              · have h5 : ¬ n = kv.1 := fun he => h4 he.symm
                simp [h4, h5]

/-- Spec-side reading of the amended mapping claim: the column index recorded
for a canonical name is that of the last (rightmost) header label whose first
catalog match carries that name, scanning from position i. -/
def lastMatchFrom (n : String) : Nat → List String → Option Nat
  | _, [] => none
  | i, c :: cs =>
      match lastMatchFrom n (i + 1) cs with
      | some j => some j
      | none => if firstMatchName c = some n then some i else none

def lastMatchingColumn (cols : List String) (n : String) : Option Nat :=
  lastMatchFrom n 0 cols

theorem lastAssign_app_eq_lastMatch (n : String) :
    ∀ (cs : List String) (i : Nat),
      lastAssignFrom appAssign n i cs = lastMatchFrom n i cs := by
  intro cs
  induction cs with
  | nil => intro i; rfl
  | cons c cs ih =>
      intro i
      simp only [lastAssignFrom, lastMatchFrom, ih]
      cases h2 : lastMatchFrom n (i + 1) cs with
      | some j => rfl
      | none =>
          cases h3 : firstMatchName c with
          | none => simp [appAssign, h3]
          | some n1 =>
              by_cases h4 : n1 = n
              · simp [appAssign, h3, h4]
              · have h5 : ¬ (some n1 = some n) := by simp [h4]
                simp [appAssign, h3, h4, h5]

theorem lastAssignFrom_spec {α : Type} (f : Nat → String → Option (String × α))
    (n : String) :
    ∀ (cs : List String) (i : Nat) (v : α), lastAssignFrom f n i cs = some v →
      ∃ k, k < cs.length ∧ f (i + k) (cs.getD k "") = some (n, v) := by
  intro cs
  induction cs with
  | nil => intro i v h; exact absurd h (by simp [lastAssignFrom])
  | cons c cs ih =>
      intro i v h
      unfold lastAssignFrom at h
      cases h2 : lastAssignFrom f n (i + 1) cs with
      | some w =>
          rw [h2] at h
          have h5 : some w = some v := h
          injection h5 with hw
          rcases ih (i + 1) w h2 with ⟨k, hk, hf⟩
          refine ⟨k + 1, by simpa using hk, ?_⟩
          have he : i + (k + 1) = i + 1 + k := by omega
          rw [← he] at hf
          rw [hw] at hf
          exact hf
      | none =>
          rw [h2] at h
          cases h3 : f i c with
          | none =>
              rw [h3] at h
              have h5 : (none : Option α) = some v := h
              simp at h5
          | some kv =>
              rw [h3] at h
              have h5 : (if kv.1 = n then some kv.2 else none) = some v := h
              by_cases h4 : kv.1 = n
              · rw [if_pos h4] at h5
                injection h5 with hv
                refine ⟨0, by simp, ?_⟩
                have hg : (c :: cs).getD 0 "" = c := rfl
                rw [Nat.add_zero, hg, h3]
                have hkv : kv = (n, v) := by
                  rcases kv with ⟨k1, v1⟩
                  simp only at h4 hv
                  rw [h4, hv]
                rw [hkv]
              · rw [if_neg h4] at h5
                simp at h5

/-- The product-row condition exactly as the claim words it: non-empty,
non-null label; a bracketed numeric code or an Arabic-block character in the
label; and some non-empty remaining cell coercing to a strictly positive
number. -/
def specIsProductRow (row : List Cell) : Prop :=
  labelOf row ≠ "" ∧ labelOf row ≠ "nan" ∧
  (hasBracketCode (labelOf row) = true ∨ hasArabicChar (labelOf row) = true) ∧
  ∃ c ∈ row.drop 1, c ≠ none ∧ 0 < (safeFloat c).toRat

/-- The amended condition satisfied by the simple variant: a bracketed code
alone suffices; Arabic text needs positive data. -/
def specIsProductRowS (row : List Cell) : Prop :=
  labelOf row ≠ "" ∧ labelOf row ≠ "nan" ∧
  (hasBracketCode (labelOf row) = true ∨
    (hasArabicChar (labelOf row) = true ∧ ∃ c ∈ row.drop 1, c ≠ none ∧ 0 < (safeFloatS c).toRat))

/-- C1: on the header [Product, WH/المخزن الرئيسى Qty] with a date row
15 Jan 2024 and two product rows, the pipeline yields exactly one record —
product [101] منتج أ, date 2024-01-15, location المخزن الرئيسي, quantity 50 —
and the [102] row contributes nothing because its only value coerces to 0. -/
theorem c1_scenario_single_record :
    processData ["Product", "WH/المخزن الرئيسى Qty"]
        [[some "15 Jan 2024", some ""],
         [some "[101] منتج أ", some "50"],
         [some "[102] منتج ب", some "0"]]
      = [{ product := "[101] منتج أ", date := "2024-01-15",
           warehouse := "المخزن الرئيسي", quantity := ⟨50, 1⟩ }]
    ∧ (⟨50, 1⟩ : PyNum).toRat = 50
    ∧ (safeFloat (some "0")).toRat = 0
    ∧ rowRecs (mapLocationColumns ["Product", "WH/المخزن الرئيسى Qty"])
        (some "2024-01-15") [some "[102] منتج ب", some "0"] = [] := by
  refine ⟨by decide, by norm_num [PyNum.toRat], ?_, by decide⟩
  have h : safeFloat (some "0") = ⟨0, 1⟩ := by decide
  rw [h]
  simp [PyNum.toRat]

/-- The Boolean positivity test agrees with the rational meaning. -/
theorem posB_iff_toRat (q : PyNum) : q.posB = true ↔ 0 < q.toRat := by
  rcases q with ⟨n, d⟩
  simp only [PyNum.posB, PyNum.toRat, Bool.and_eq_true, decide_eq_true_eq]
  rw [div_pos_iff]
  constructor
  · rintro ⟨hn, hd⟩
    exact Or.inl ⟨by exact_mod_cast hn, by exact_mod_cast hd⟩
  · rintro (⟨hn, hd⟩ | ⟨hn, hd⟩)
    · exact ⟨by exact_mod_cast hn, by exact_mod_cast hd⟩
    · exact absurd hd (not_lt.mpr (by positivity))

/-- C2 (amended): in the app variant every record surviving cleaning has a
strictly positive quantity; in the count-tracking simple variant a surviving
record only has positive quantity OR positive count — a zero-quantity record
with a positive count survives. -/
theorem c2_amended_positivity :
    (∀ (cols : List String) (rows : List (List Cell)) (r : InvRecord),
        r ∈ processData cols rows → 0 < r.quantity.toRat)
  ∧ (∀ (cols : List String) (rows : List (List Cell)) (r : SInvRecord),
        r ∈ processDataS cols rows → 0 < r.quantity.toRat ∨ 0 < r.count.toRat) := by
  constructor
  · intro cols rows r h
    simp only [processData] at h
    split at h
    · exact absurd h (List.not_mem_nil r)
    · have h2 := mem_sortRecs h
      rcases List.mem_map.mp h2 with ⟨a, ha, hr⟩
      have h3 := (List.mem_filter.mp ha).2
      rw [← hr]
      exact (posB_iff_toRat a.quantity).mp h3
  · intro cols rows r h
    simp only [processDataS] at h
    split at h
    · exact absurd h (List.not_mem_nil r)
    · have h2 := mem_sortRecsS h
      rcases List.mem_map.mp h2 with ⟨a, ha, hr⟩
      have h3 := (List.mem_filter.mp ha).2
      rw [Bool.or_eq_true] at h3
      rw [← hr]
      rcases h3 with h3 | h3
      · exact Or.inl ((posB_iff_toRat a.quantity).mp h3)
      · exact Or.inr ((posB_iff_toRat a.count).mp h3)

/-- C2 counterexample: in the simple variant, a product row with count 5 and
quantity 0 for a mapped location yields a record that survives cleaning with
quantity 0 — refuting that every surviving record has quantity > 0. -/
theorem c2_counterexample :
    processDataS ["Product", "POS/الصالة", "X"]
        [[some "[101] منتج", some "5", some "0"]]
      = [{ product := "[101] منتج", date := "Unknown", location := "الصالة",
           count := ⟨5, 1⟩, quantity := ⟨0, 1⟩ }]
    ∧ ¬ (0 < (⟨0, 1⟩ : PyNum).toRat) := by
  refine ⟨by decide, ?_⟩
  simp [PyNum.toRat]

/-- Witness for c2_amended_positivity at a concrete sheet. -/
theorem c2_witness :
    ({ product := "[101] منتج أ", date := "غير محدد",
       warehouse := "المخزن الرئيسي", quantity := ⟨50, 1⟩ } : InvRecord)
      ∈ processData ["Product", "WH/المخزن الرئيسى Qty"] [[some "[101] منتج أ", some "50"]]
    ∧ 0 < (⟨50, 1⟩ : PyNum).toRat :=
  ⟨by decide,
   c2_amended_positivity.1 ["Product", "WH/المخزن الرئيسى Qty"]
     [[some "[101] منتج أ", some "50"]]
     { product := "[101] منتج أ", date := "غير محدد",
       warehouse := "المخزن الرئيسي", quantity := ⟨50, 1⟩ }
     (by decide)⟩

/-- C3 counterexample: when the catalog fragment WH/المخزن الرئيسى occurs in
two header labels, the recorded column index is 1 (the last match), not 0
(the first match the claim asserts). -/
theorem c3_counterexample :
    dlookup (mapLocationColumns ["WH/المخزن الرئيسى A", "WH/المخزن الرئيسى B"])
        "المخزن الرئيسي" = some 1
    ∧ ¬ (dlookup (mapLocationColumns ["WH/المخزن الرئيسى A", "WH/المخزن الرئيسى B"])
        "المخزن الرئيسي" = some 0) := by
  refine ⟨by decide, by decide⟩

/-- C3 (amended): the mapping is deterministic and its entry for a canonical
name is exactly the index of the last (rightmost) header label whose first
catalog match carries that name — in particular there is one entry per
catalog name that is the first match of some header label, and duplicate
matches are resolved in favour of the last one. -/
theorem c3_amended_last_match :
    ∀ (cols : List String) (n : String),
      dlookup (mapLocationColumns cols) n = lastMatchingColumn cols n := by
  intro cols n
  unfold mapLocationColumns lastMatchingColumn
  rw [dlookup_buildMapFrom]
  rw [lastAssign_app_eq_lastMatch]
  cases h : lastMatchFrom n 0 cols with
  | some j => rfl
  | none => rfl

/-- C9: the location maps of both variants are injective — distinct canonical
names never share a column index (resp. column-index pair), because each
header column is consumed by at most one catalog entry. -/
theorem c9_injective :
    (∀ (cols : List String) (n1 n2 : String) (i : Nat),
        dlookup (mapLocationColumns cols) n1 = some i →
        dlookup (mapLocationColumns cols) n2 = some i → n1 = n2)
  ∧ (∀ (cols : List String) (n1 n2 : String) (p : Nat × Nat),
        dlookup (createLocationMapping cols) n1 = some p →
        dlookup (createLocationMapping cols) n2 = some p → n1 = n2) := by
  constructor
  · intro cols n1 n2 i h1 h2
    have e1 : dlookup (mapLocationColumns cols) n1 = lastAssignFrom appAssign n1 0 cols := by
      unfold mapLocationColumns
      rw [dlookup_buildMapFrom]
      cases lastAssignFrom appAssign n1 0 cols with
      | some j => rfl
      | none => rfl
    have e2 : dlookup (mapLocationColumns cols) n2 = lastAssignFrom appAssign n2 0 cols := by
      unfold mapLocationColumns
      rw [dlookup_buildMapFrom]
      cases lastAssignFrom appAssign n2 0 cols with
      | some j => rfl
      | none => rfl
    rw [e1] at h1
    rw [e2] at h2
    rcases lastAssignFrom_spec appAssign n1 cols 0 i h1 with ⟨k1, hk1, hf1⟩
    rcases lastAssignFrom_spec appAssign n2 cols 0 i h2 with ⟨k2, hk2, hf2⟩
    simp only [appAssign, Option.map_eq_some'] at hf1 hf2
    rcases hf1 with ⟨m1, hm1, he1⟩
    rcases hf2 with ⟨m2, hm2, he2⟩
    have hi1 : 0 + k1 = i := congrArg Prod.snd he1
    have hi2 : 0 + k2 = i := congrArg Prod.snd he2
    have hk : k1 = k2 := by omega
    have hn1 : m1 = n1 := congrArg Prod.fst he1
    have hn2 : m2 = n2 := congrArg Prod.fst he2
    rw [← hn1, ← hn2]
    rw [hk] at hm1
    rw [hm1] at hm2
    exact Option.some_inj.mp hm2
  · intro cols n1 n2 p h1 h2
    have e1 : dlookup (createLocationMapping cols) n1
        = lastAssignFrom (simpleAssign cols.length) n1 0 cols := by
      unfold createLocationMapping
      rw [dlookup_buildMapFrom]
      cases lastAssignFrom (simpleAssign cols.length) n1 0 cols with
      | some j => rfl
      | none => rfl
    have e2 : dlookup (createLocationMapping cols) n2
        = lastAssignFrom (simpleAssign cols.length) n2 0 cols := by
      unfold createLocationMapping
      rw [dlookup_buildMapFrom]
      cases lastAssignFrom (simpleAssign cols.length) n2 0 cols with
      | some j => rfl
      | none => rfl
    rw [e1] at h1
    rw [e2] at h2
    rcases lastAssignFrom_spec (simpleAssign cols.length) n1 cols 0 p h1 with ⟨k1, hk1, hf1⟩
    rcases lastAssignFrom_spec (simpleAssign cols.length) n2 cols 0 p h2 with ⟨k2, hk2, hf2⟩
    simp only [simpleAssign, Option.bind_eq_some] at hf1 hf2
    rcases hf1 with ⟨l1, hl1, he1⟩
    rcases hf2 with ⟨l2, hl2, he2⟩
    split at he1
    · split at he2
      · have hp1 : (cleanLocationName l1, (0 + k1, 0 + k1 + 1)) = (n1, p) :=
          Option.some_inj.mp he1
        have hp2 : (cleanLocationName l2, (0 + k2, 0 + k2 + 1)) = (n2, p) :=
          Option.some_inj.mp he2
        have hq1 : (0 + k1, 0 + k1 + 1) = p := congrArg Prod.snd hp1
        have hq2 : (0 + k2, 0 + k2 + 1) = p := congrArg Prod.snd hp2
        have hk : k1 = k2 := by
          have t1 : 0 + k1 = p.1 := congrArg Prod.fst hq1
          have t2 : 0 + k2 = p.1 := congrArg Prod.fst hq2
          omega
        have hn1 : cleanLocationName l1 = n1 := congrArg Prod.fst hp1
        have hn2 : cleanLocationName l2 = n2 := congrArg Prod.fst hp2
        rw [hk] at hl1
        rw [hl1] at hl2
        have hl : l1 = l2 := Option.some_inj.mp hl2
        rw [← hn1, ← hn2, hl]
      · exact absurd he2 (by simp)
    · exact absurd he1 (by simp)

/-- Witness for c9_injective at a concrete header. -/
theorem c9_witness :
    dlookup (mapLocationColumns ["Product", "WH/المخزن الرئيسى Qty"]) "المخزن الرئيسي"
        = some 1
    ∧ ("المخزن الرئيسي" : String) = "المخزن الرئيسي" :=
  ⟨by decide,
   c9_injective.1 ["Product", "WH/المخزن الرئيسى Qty"] "المخزن الرئيسي" "المخزن الرئيسي" 1
     (by decide) (by decide)⟩

/-- C4 counterexample: the simple variant classifies a row whose label has a
bracketed code but whose only data value coerces to 0 as a product row, while
the claim's condition (code-or-Arabic AND positive data) rejects it. -/
theorem c4_counterexample :
    isProductRowS [some "[101]", some "0"] (labelOf [some "[101]", some "0"]) = true
    ∧ ¬ specIsProductRow [some "[101]", some "0"] := by
  constructor
  · decide
  · intro h
    rcases h with ⟨_, _, _, c, hc, _, hpos⟩
    have hc0 : c = some "0" := by
      rcases List.mem_singleton.mp hc with h1
      exact h1
    rw [hc0] at hpos
    have : safeFloat (some "0") = ⟨0, 1⟩ := by decide
    rw [this] at hpos
    simp [PyNum.toRat] at hpos

/-- C4 (amended): the app variant's product-row test is exactly the claim's
condition; the simple variant instead accepts a bracketed code alone, only
requiring positive data for Arabic-only labels. -/
theorem c4_amended_classification :
    (∀ row : List Cell, isProductRow row (labelOf row) = true ↔ specIsProductRow row)
  ∧ (∀ row : List Cell, isProductRowS row (labelOf row) = true ↔ specIsProductRowS row) := by
  constructor
  · intro row
    unfold isProductRow specIsProductRow hasPositiveData
    by_cases h1 : labelOf row = ""
    · simp [h1]
    · by_cases h2 : labelOf row = "nan"
      · simp [h1, h2]
      · simp only [h1, h2, Bool.or_eq_true, if_neg, Bool.or_self, Bool.false_or,
          decide_eq_true_eq, not_false_iff, ne_eq, Bool.and_eq_true, List.any_eq_true,
          Bool.not_eq_true', posB_iff_toRat]
        constructor
        · rintro ⟨hcode, c, hc, hna, hpos⟩
          refine ⟨trivial, trivial, hcode, c, hc, ?_, hpos⟩
          intro he
          rw [he] at hna
          exact absurd hna (by simp)
        · rintro ⟨_, _, hcode, c, hc, hne, hpos⟩
          refine ⟨hcode, c, hc, ?_, hpos⟩
          simpa using hne
  · intro row
    unfold isProductRowS specIsProductRowS hasPositiveDataS
    by_cases h1 : labelOf row = ""
    · simp [h1]
    · by_cases h2 : labelOf row = "nan"
      · simp [h1, h2]
      · simp only [h1, h2, Bool.or_eq_true, if_neg, Bool.or_self, Bool.false_or,
          decide_eq_true_eq, not_false_iff, ne_eq, Bool.and_eq_true, List.any_eq_true,
          Bool.not_eq_true', posB_iff_toRat]
        constructor
        · rintro (hcode | ⟨har, c, hc, hna, hpos⟩)
          · exact ⟨trivial, trivial, Or.inl hcode⟩
          · refine ⟨trivial, trivial, Or.inr ⟨har, c, hc, ?_, hpos⟩⟩
            intro he
            rw [he] at hna
            exact absurd hna (by simp)
        · rintro ⟨_, _, (hcode | ⟨har, c, hc, hne, hpos⟩)⟩
          · exact Or.inl hcode
          · refine Or.inr ⟨har, c, hc, ?_, hpos⟩
            simpa using hne

/-- C5: date persistence.  For a sheet pre ++ dr :: mid ++ r :: post where dr
is a date-marker row and mid contains no date-marker, the loop's output
decomposes so that row r contributes exactly its records under the date
committed by dr, and those records all carry that date; rows that are not
date-markers never change the current date; and a product row with no
preceding date-marker emits records carrying the sentinel غير محدد instead of
failing. -/
theorem c5_date_persistence (lm : List (String × Nat))
    (pre mid post : List (List Cell)) (dr r : List Cell) (d0 : Option String)
    (hdr : isDateMarker dr = true)
    (hmid : ∀ x ∈ mid, isDateMarker x = false) :
    (extractLoop lm d0 (pre ++ dr :: (mid ++ r :: post))
      = extractLoop lm d0 pre
        ++ extractLoop lm (some (parseDate (labelOf dr))) mid
        ++ rowRecs lm (some (parseDate (labelOf dr))) r
        ++ extractLoop lm
            (stepDate (some (parseDate (labelOf dr))) r) post)
    ∧ (∀ rec ∈ rowRecs lm (some (parseDate (labelOf dr))) r,
        rec.date = parseDate (labelOf dr))
    ∧ (∀ (x : List Cell) (d : Option String), isDateMarker x = false → stepDate d x = d)
    ∧ ((∀ x ∈ pre, isDateMarker x = false) →
        extractLoop lm none (pre ++ r :: post)
          = extractLoop lm none pre ++ rowRecs lm none r
            ++ extractLoop lm (stepDate none r) post
        ∧ ∀ rec ∈ rowRecs lm none r, rec.date = appSentinel) := by
  have hstep : ∀ (x : List Cell) (d : Option String),
      isDateMarker x = false → stepDate d x = d := by
    intro x d hx
    rw [stepDate_eq, hx]
    simp
  refine ⟨?_, ?_, hstep, ?_⟩
  · rw [extractLoop_append]
    have h1 : extractLoop lm (stateAfter d0 pre) (dr :: (mid ++ r :: post))
        = rowRecs lm (stateAfter d0 pre) dr
          ++ extractLoop lm (stepDate (stateAfter d0 pre) dr) (mid ++ r :: post) := rfl
    rw [h1]
    rw [rowRecs_marker lm (stateAfter d0 pre) dr hdr]
    have h2 : stepDate (stateAfter d0 pre) dr = some (parseDate (labelOf dr)) := by
      rw [stepDate_eq, hdr]
      simp
    rw [h2]
    rw [extractLoop_append]
    rw [stateAfter_no_marker (some (parseDate (labelOf dr))) mid hmid]
    have h3 : extractLoop lm (some (parseDate (labelOf dr))) (r :: post)
        = rowRecs lm (some (parseDate (labelOf dr))) r
          ++ extractLoop lm (stepDate (some (parseDate (labelOf dr))) r) post := rfl
    rw [h3]
    simp [List.append_assoc]
  · intro rec h
    have := rowRecs_date lm (some (parseDate (labelOf dr))) r rec h
    simpa using this
  · intro hpre
    constructor
    · rw [extractLoop_append]
      rw [stateAfter_no_marker none pre hpre]
      have h3 : extractLoop lm none (r :: post)
          = rowRecs lm none r ++ extractLoop lm (stepDate none r) post := rfl
      rw [h3]
      simp [List.append_assoc]
    · intro rec h
      have := rowRecs_date lm none r rec h
      simpa [appSentinel] using this

/-- Witness for c5_date_persistence on a concrete two-row sheet. -/
theorem c5_witness :
    isDateMarker [(some "15 Jan 2024" : Cell)] = true
    ∧ ∀ rec ∈ rowRecs [("المخزن الرئيسي", 1)]
        (some (parseDate (labelOf [(some "15 Jan 2024" : Cell)])))
        [some "[101] منتج", some "5"],
        rec.date = parseDate (labelOf [(some "15 Jan 2024" : Cell)]) :=
  ⟨by decide,
   (c5_date_persistence [("المخزن الرئيسي", 1)] [] [] [] [some "15 Jan 2024"]
      [some "[101] منتج", some "5"] none (by decide)
      (by intro x hx; exact absurd hx (List.not_mem_nil x))).2.1⟩

/-- C6: safe_float is total by construction (it is a function into PyNum) and
never raises; concretely 1,234.50 parses to 1234.50, the empty string and
unparsable text give 0.0, missing values give 0.0, every whitespace-only
input gives 0.0, and every parse failure gives 0.0 — in both variants. -/
theorem c6_safe_float_total :
    (safeFloat (some "1,234.50")).toRat = 1234.50
    ∧ (safeFloat (some "")).toRat = 0
    ∧ (safeFloat (some "abc")).toRat = 0
    ∧ (safeFloat none).toRat = 0
    ∧ (∀ s : String, trimL s.data = [] → safeFloat (some s) = pyZero)
    ∧ (∀ s : String,
        parsePyFloat (trimL (s.data.filter fun c => !(c = ',' || c = Char.ofNat 34))) = none →
        safeFloat (some s) = pyZero)
    ∧ (safeFloatS (some "1,234.50")).toRat = 1234.50
    ∧ (safeFloatS (some "")).toRat = 0
    ∧ (safeFloatS (some "abc")).toRat = 0
    ∧ (safeFloatS none).toRat = 0
    ∧ (∀ s : String,
        parsePyFloat (trimL (s.data.filter fun c => !(c = ','))) = none →
        safeFloatS (some s) = pyZero)
    ∧ pyZero.toRat = 0 := by
  refine ⟨?_, ?_, ?_, ?_, ?_, ?_, ?_, ?_, ?_, ?_, ?_, ?_⟩
  · have h : safeFloat (some "1,234.50") = ⟨123450, 100⟩ := by decide
    rw [h]
    norm_num [PyNum.toRat]
  · have h : safeFloat (some "") = pyZero := by decide
    rw [h]
    simp [PyNum.toRat, pyZero]
  · have h : safeFloat (some "abc") = pyZero := by decide
    rw [h]
    simp [PyNum.toRat, pyZero]
  · simp [safeFloat, PyNum.toRat, pyZero]
  · intro s h
    simp only [safeFloat]
    rw [if_pos h]
  · intro s h
    simp only [safeFloat]
    split
    · rfl
    · split
      · rfl
      · rw [h]
        rfl
  · have h : safeFloatS (some "1,234.50") = ⟨123450, 100⟩ := by decide
    rw [h]
    norm_num [PyNum.toRat]
  · have h : safeFloatS (some "") = pyZero := by decide
    rw [h]
    simp [PyNum.toRat, pyZero]
  · have h : safeFloatS (some "abc") = pyZero := by decide
    rw [h]
    simp [PyNum.toRat, pyZero]
  · simp [safeFloatS, PyNum.toRat, pyZero]
  · intro s h
    simp only [safeFloatS]
    split
    · rw [h]
      rfl
    · rfl
  · simp [PyNum.toRat, pyZero]

/-- Witness for c6_safe_float_total: the whitespace and parse-failure clauses
applied at concrete inputs. -/
theorem c6_witness :
    (trimL "   ".data = [] ∧ safeFloat (some "   ") = pyZero)
    ∧ (parsePyFloat (trimL ("x1".data.filter fun c => !(c = ',' || c = Char.ofNat 34))) = none
       ∧ safeFloat (some "x1") = pyZero)
    ∧ (parsePyFloat (trimL ("x1".data.filter fun c => !(c = ','))) = none
       ∧ safeFloatS (some "x1") = pyZero) :=
  ⟨⟨by decide, c6_safe_float_total.2.2.2.2.1 "   " (by decide)⟩,
   ⟨by decide, c6_safe_float_total.2.2.2.2.2.1 "x1" (by decide)⟩,
   ⟨by decide, c6_safe_float_total.2.2.2.2.2.2.2.2.2.2.1 "x1" (by decide)⟩⟩

/-- C7: two-tier error handling.  A file-level decoding failure is caught at
the top and yields the empty record set; the row loop decomposes around any
single row, so a row contributing nothing (the row-level degradation) never
prevents the remaining rows from being processed. -/
theorem c7_error_tiers :
    (∀ e : String, processDataTop (Except.error e) = [])
    ∧ (∀ (lm : List (String × Nat)) (d : Option String)
        (pre : List (List Cell)) (r : List Cell) (post : List (List Cell)),
        extractLoop lm d (pre ++ r :: post)
          = extractLoop lm d pre ++ rowRecs lm (stateAfter d pre) r
            ++ extractLoop lm (stepDate (stateAfter d pre) r) post)
    ∧ (∀ (lm : List (String × Nat)) (d : Option String)
        (r : List Cell) (post : List (List Cell)),
        rowRecs lm d r = [] →
        extractLoop lm d (r :: post) = extractLoop lm (stepDate d r) post) := by
  refine ⟨fun _ => rfl, ?_, ?_⟩
  · intro lm d pre r post
    rw [extractLoop_append]
    have h : extractLoop lm (stateAfter d pre) (r :: post)
        = rowRecs lm (stateAfter d pre) r
          ++ extractLoop lm (stepDate (stateAfter d pre) r) post := rfl
    rw [h]
    simp [List.append_assoc]
  · intro lm d r post h
    have h2 : extractLoop lm d (r :: post)
        = rowRecs lm d r ++ extractLoop lm (stepDate d r) post := rfl
    rw [h2, h]
    simp

/-- Witness for c7_error_tiers: a row that contributes nothing (its label is
neither a code nor Arabic) leaves the rest of the batch processed. -/
theorem c7_witness :
    rowRecs [("المخزن الرئيسي", 1)] none [some "misc", some "5"] = []
    ∧ extractLoop [("المخزن الرئيسي", 1)] none
        ([some "misc", some "5"] :: [[some "[101] منتج", some "5"]])
      = extractLoop [("المخزن الرئيسي", 1)]
          (stepDate none [some "misc", some "5"]) [[some "[101] منتج", some "5"]] :=
  ⟨by decide,
   c7_error_tiers.2.2 [("المخزن الرئيسي", 1)] none [some "misc", some "5"]
     [[some "[101] منتج", some "5"]] (by decide)⟩

/-- C8: process_data is deterministic and idempotent per object: a second call
on the unchanged raw sheet returns the same record list and leaves the
object's state fixed, and the returned list is exactly the pure pipeline of
the raw sheet — in both variants. -/
theorem c8_idempotent :
    (∀ st : ProcessorState,
        (processDataRun (processDataRun st).2).1 = (processDataRun st).1
        ∧ (processDataRun (processDataRun st).2).2 = (processDataRun st).2
        ∧ (processDataRun st).1 = processData st.rawCols st.rawRows)
    ∧ (∀ st : SProcessorState,
        (processDataRunS (processDataRunS st).2).1 = (processDataRunS st).1
        ∧ (processDataRunS (processDataRunS st).2).2 = (processDataRunS st).2
        ∧ (processDataRunS st).1 = processDataS st.rawCols st.rawRows) := by
  constructor
  · intro st
    simp only [processDataRun, processData]
    by_cases h : extractLoop (mapLocationColumns st.rawCols) none st.rawRows = []
    · simp [h]
    · simp [h]
  · intro st
    simp only [processDataRunS, processDataS]
    by_cases h : extractLoopS (createLocationMapping st.rawCols) none st.rawRows = []
    · simp [h]
    · simp [h]

/-- C10: a month-plus-year date marker parses to the first day of that month
in ISO form, for every month; in particular June 2024 → 2024-06-01, which is
exactly what a 1 June 2024 marker yields, so month-only markers are
indistinguishable from day-one markers; the loop commits this value. -/
theorem c10_month_only_dates :
    (∀ mi : Fin 12,
        parseDate (monthsFull.getD mi "" ++ " 2024") = isoOfYMD 2024 (mi.val + 1) 1
        ∧ parseDate ("1 " ++ monthsFull.getD mi "" ++ " 2024") = isoOfYMD 2024 (mi.val + 1) 1
        ∧ isDateRow (monthsFull.getD mi "" ++ " 2024") = true)
    ∧ parseDate "June 2024" = "2024-06-01"
    ∧ parseDate "June 2024" = parseDate "1 June 2024"
    ∧ stepDate none [some "June 2024"] = some "2024-06-01" := by
  refine ⟨by decide, by decide, by decide, by decide⟩
